import Mathlib

/-!
Shallow embedding of the `event_loop` crate (src/src/lib.rs): a pull-based
timing engine that interleaves Render / AfterRender / Update / Input / Idle
events.  The Rust iterator `Events<W, E>` is embedded as a record `Events`
of its timing and configuration fields, the external collaborators
(monotonic clock, window `should_close` / `size` / `poll_event` /
`swap_buffers`, blocking sleep) are embedded as oracle streams in a `World`
record with one read cursor per collaborator, and one iteration of the
`loop` inside `Iterator::next` is the function `step`.  `f64` seconds are
modelled as `ℚ`; `u64` nanosecond arithmetic is modelled on `ℕ` (no claim
depends on 64-bit wraparound), while the `as u32` cast inside `ns_to_ms`
keeps its explicit `% 2 ^ 32`.
-/

namespace EventLoop

/-- Rust: `static BILLION: u64 = 1_000_000_000;`. -/
def BILLION : ℕ := 1000000000

/-- Rust: `fn ns_to_ms(ns: u64) -> u32`, i.e. `(ns / 1_000_000) as u32`. -/
def ns_to_ms (ns : ℕ) : ℕ := (ns / 1000000) % 2 ^ 32

/-- Rust: `pub const DEFAULT_UPS: u64 = 120;`. -/
def DEFAULT_UPS : ℕ := 120

/-- Rust: `pub const DEFAULT_MAX_FPS: u64 = 60;`. -/
def DEFAULT_MAX_FPS : ℕ := 60

/-- The private `enum State`; `UpdateLoop(Idle)` carries the idle flag as a
`Bool` (`Idle::No ↦ false`, `Idle::Yes ↦ true`). -/
inductive State where
  | render
  | swapBuffers
  | updateLoop (idle : Bool)
  | handleEvents
  | update
deriving DecidableEq, Repr

/-- The five event shapes produced through the `EventMap` factory.  The
factory is modelled by emitting this tagged variant directly (the factory
maps each shape injectively to the caller's event type). -/
inductive Ev (I : Type) where
  | render (ext_dt : ℚ) (width height : ℕ)
  | afterRender
  | update (dt : ℚ)
  | input (x : I)
  | idle (dt : ℚ)
deriving DecidableEq

/-- The fields of `struct Events<W, E>` that the engine itself owns
(`window` and the phantom marker live in `World` / nowhere). -/
structure Events where
  state : State
  last_update : ℕ
  last_frame : ℕ
  dt_update_in_ns : ℕ
  dt_frame_in_ns : ℕ
  dt : ℚ
  swap_buffers : Bool
deriving DecidableEq

/-- The external collaborators as oracle streams, each with its own read
cursor: the monotonic clock (`clock_ticks::precise_time_ns`), the window's
`should_close`, `size` and `poll_event`, plus a log of `sleep_ms` requests
(in ms) and a count of `swap_buffers` calls for observing effects. -/
structure World (I : Type) where
  time : ℕ → ℕ
  timeIdx : ℕ
  closeS : ℕ → Bool
  closeIdx : ℕ
  sizeS : ℕ → ℕ × ℕ
  sizeIdx : ℕ
  pollS : ℕ → Option I
  pollIdx : ℕ
  sleeps : List ℕ
  swaps : ℕ

/-- Result of one iteration of the `loop` in `next`: `yields` is true when
the Rust code executed a `return` on this iteration, `out` the returned
value there (`none` models `return None`), `m` and `w` the engine and
world afterwards. -/
structure StepOut (I : Type) where
  yields : Bool
  out : Option (Ev I)
  m : Events
  w : World I

/-- One iteration of the `loop` body of `fn next(&mut self)`, translated
arm by arm from the source. -/
def step {I : Type} (m : Events) (w : World I) : StepOut I :=
  match m.state with
  | State.render =>
      let close := w.closeS w.closeIdx
      let w1 := { w with closeIdx := w.closeIdx + 1 }
      if close then
        ⟨true, none, m, w1⟩
      else
        let start_render := w1.time w1.timeIdx
        let w2 := { w1 with timeIdx := w1.timeIdx + 1 }
        let m1 := { m with last_frame := start_render }
        let sz := w2.sizeS w2.sizeIdx
        let w3 := { w2 with sizeIdx := w2.sizeIdx + 1 }
        if sz.1 ≠ 0 ∧ sz.2 ≠ 0 then
          ⟨true,
           some (Ev.render (((start_render - m1.last_update : ℕ) : ℚ) / (BILLION : ℚ))
             sz.1 sz.2),
           { m1 with state := State.swapBuffers }, w3⟩
        else
          ⟨false, none, { m1 with state := State.updateLoop false }, w3⟩
  | State.swapBuffers =>
      if m.swap_buffers then
        ⟨true, some Ev.afterRender, { m with state := State.updateLoop false },
         { w with swaps := w.swaps + 1 }⟩
      else
        ⟨false, none, { m with state := State.updateLoop false }, w⟩
  | State.updateLoop idle =>
      let current_time := w.time w.timeIdx
      let w1 := { w with timeIdx := w.timeIdx + 1 }
      let next_frame := m.last_frame + m.dt_frame_in_ns
      let next_update := m.last_update + m.dt_update_in_ns
      let next_event := min next_frame next_update
      if current_time < next_event then
        match w1.pollS w1.pollIdx with
        | some x =>
            ⟨true, some (Ev.input x), { m with state := State.updateLoop false },
             { w1 with pollIdx := w1.pollIdx + 1 }⟩
        | none =>
            if idle = false then
              ⟨true,
               some (Ev.idle (((next_event - current_time : ℕ) : ℚ) / (BILLION : ℚ))),
               { m with state := State.updateLoop true },
               { w1 with pollIdx := w1.pollIdx + 1 }⟩
            else
              ⟨false, none, { m with state := State.updateLoop false },
               { w1 with pollIdx := w1.pollIdx + 1,
                         sleeps := w1.sleeps ++ [ns_to_ms (next_event - current_time)] }⟩
      else if next_event = next_frame then
        ⟨false, none, { m with state := State.render }, w1⟩
      else
        ⟨false, none, { m with state := State.handleEvents }, w1⟩
  | State.handleEvents =>
      match w.pollS w.pollIdx with
      | none =>
          ⟨false, none, { m with state := State.update }, { w with pollIdx := w.pollIdx + 1 }⟩
      | some x =>
          ⟨true, some (Ev.input x), m, { w with pollIdx := w.pollIdx + 1 }⟩
  | State.update =>
      ⟨true, some (Ev.update m.dt),
       { m with state := State.updateLoop false,
                last_update := m.last_update + m.dt_update_in_ns }, w⟩

/-- Rust: `fn next(&mut self) -> Option<E>`, with explicit fuel for the inner
`loop`: `none` means the fuel ran out before the loop returned, otherwise
`some (out, m, w)` where `out` is what `next` returned (`none` = `None`). -/
def nextFuel {I : Type} : ℕ → Events → World I → Option (Option (Ev I) × Events × World I)
  | 0, _, _ => none
  | f + 1, m, w =>
      let s := step m w
      if s.yields then some (s.out, s.m, s.w) else nextFuel f s.m s.w

/-- The result of the `n`-th call to `next` (0-indexed), each call run with
fuel `f`, threading the engine and world through the preceding calls. -/
def iterCalls {I : Type} (f : ℕ) : ℕ → Events → World I → Option (Option (Ev I) × Events × World I)
  | 0, m, w => nextFuel f m w
  | n + 1, m, w =>
      match nextFuel f m w with
      | none => none
      | some (_, m', w') => iterCalls f n m' w'

/-- The events a single loop iteration hands to the caller (the `return
None` of a closed window contributes nothing). -/
def emitted {I : Type} (s : StepOut I) : List (Ev I) :=
  if s.yields then s.out.toList else []

/-- Run `n` loop iterations (across calls to `next`), collecting every
event handed to the caller. -/
def runSteps {I : Type} : ℕ → Events → World I → Events × World I × List (Ev I)
  | 0, m, w => (m, w, [])
  | n + 1, m, w =>
      let s := step m w
      let r := runSteps n s.m s.w
      (r.1, r.2.1, emitted s ++ r.2.2)

/-- Rust's `u64` division, which panics on a zero divisor (`none`). -/
def checked_div (a b : ℕ) : Option ℕ :=
  if b = 0 then none else some (a / b)

/-- Rust: `pub fn ups(mut self, frames: u64) -> Self`. -/
def ups? (m : Events) (frames : ℕ) : Option Events :=
  (checked_div BILLION frames).map fun q =>
    { m with dt_update_in_ns := q, dt := 1 / (frames : ℚ) }

/-- Rust: `pub fn max_fps(mut self, frames: u64) -> Self`. -/
def max_fps? (m : Events) (frames : ℕ) : Option Events :=
  (checked_div BILLION frames).map fun q => { m with dt_frame_in_ns := q }

/-- Rust: `pub fn swap_buffers(mut self, enable: bool) -> Self`. -/
def set_swap_buffers (m : Events) (enable : Bool) : Events :=
  { m with swap_buffers := enable }

/-- Rust: `pub fn new(window) -> Events<W, E>`; `start` is the clock reading
taken at construction. -/
def new? (start : ℕ) : Option Events :=
  (checked_div BILLION DEFAULT_UPS).bind fun du =>
    (checked_div BILLION DEFAULT_MAX_FPS).map fun df =>
      { state := State.render
        last_update := start
        last_frame := start
        dt_update_in_ns := du
        dt_frame_in_ns := df
        dt := 1 / (DEFAULT_UPS : ℚ)
        swap_buffers := true }

/-- Recognizer for `Update` events. -/
def isUpdateEv {I : Type} : Ev I → Bool
  | Ev.update _ => true
  | _ => false

/-- Number of `Update` events in an emission trace. -/
def countUpdates {I : Type} (es : List (Ev I)) : ℕ := es.countP isUpdateEv

/-- Total simulation time committed by the `Update` events of a trace
(sum of their `dt` payloads, in seconds). -/
def sumUpdateDts {I : Type} (es : List (Ev I)) : ℚ :=
  (es.map fun e => match e with | Ev.update d => d | _ => 0).sum

/-! ### Step-level lemmas -/

theorem step_config {I : Type} (m : Events) (w : World I) :
    (step m w).m.dt_update_in_ns = m.dt_update_in_ns
    ∧ (step m w).m.dt_frame_in_ns = m.dt_frame_in_ns
    ∧ (step m w).m.dt = m.dt
    ∧ (step m w).m.swap_buffers = m.swap_buffers := by
  obtain ⟨st, lu, lf, du, df, dt, sb⟩ := m
  cases st <;> simp only [step] <;>
    repeat' first
      | rfl
      | split
      | constructor

theorem step_emitted_update {I : Type} (m : Events) (w : World I) :
    (step m w).m.last_update
      = m.last_update + countUpdates (emitted (step m w)) * m.dt_update_in_ns
    ∧ (∀ d, Ev.update d ∈ emitted (step m w) → d = m.dt)
    ∧ sumUpdateDts (emitted (step m w))
      = (countUpdates (emitted (step m w)) : ℚ) * m.dt := by
  obtain ⟨st, lu, lf, du, df, dt, sb⟩ := m
  cases st <;> simp only [step] <;>
    repeat' first
      | rfl
      | split
      | constructor
      | (simp [emitted, countUpdates, sumUpdateDts, isUpdateEv])

theorem step_render_closed {I : Type} (m : Events) (w : World I)
    (hs : m.state = State.render) (hc : w.closeS w.closeIdx = true) :
    step m w = ⟨true, none, m, { w with closeIdx := w.closeIdx + 1 }⟩ := by
  obtain ⟨st, lu, lf, du, df, dt, sb⟩ := m
  have hst : st = State.render := hs
  subst hst
  simp [step, hc]

theorem step_none_only_closed {I : Type} (m : Events) (w : World I)
    (hy : (step m w).yields = true) (ho : (step m w).out = none) :
    m.state = State.render ∧ w.closeS w.closeIdx = true := by
  obtain ⟨st, lu, lf, du, df, dt, sb⟩ := m
  cases st <;> simp only [step] at hy ho ⊢ <;>
    repeat' first
      | rfl
      | (split at hy)
      | constructor
      | simp_all

theorem step_last_frame_render {I : Type} (m : Events) (w : World I)
    (hs : m.state = State.render) (hc : w.closeS w.closeIdx = false) :
    (step m w).m.last_frame = w.time w.timeIdx := by
  obtain ⟨st, lu, lf, du, df, dt, sb⟩ := m
  have hst : st = State.render := hs
  subst hst
  simp only [step, hc, Bool.false_eq_true, if_false]
  split <;> rfl

theorem step_last_frame_other {I : Type} (m : Events) (w : World I)
    (hs : m.state ≠ State.render) :
    (step m w).m.last_frame = m.last_frame := by
  obtain ⟨st, lu, lf, du, df, dt, sb⟩ := m
  cases st <;> simp only [step] <;>
    repeat' first
      | rfl
      | split
      | simp_all

theorem countUpdates_emitted_le_one {I : Type} (s : StepOut I) :
    countUpdates (emitted s) ≤ 1 := by
  unfold emitted countUpdates
  split
  · cases s.out <;> simp [List.countP_cons] <;> split <;> simp
  · simp

theorem step_last_update_cases {I : Type} (m : Events) (w : World I) :
    (step m w).m.last_update = m.last_update
    ∨ (step m w).m.last_update = m.last_update + m.dt_update_in_ns := by
  have h1 := (step_emitted_update m w).1
  rcases Nat.le_one_iff_eq_zero_or_eq_one.mp (countUpdates_emitted_le_one (step m w))
    with h | h
  · left; rw [h1, h]; ring
  · right; rw [h1, h]; ring

theorem step_sleeps_good {I : Type} (m : Events) (w : World I)
    (hs : m.state ≠ State.updateLoop true) :
    (step m w).w.sleeps = w.sleeps := by
  obtain ⟨st, lu, lf, du, df, dt, sb⟩ := m
  cases st <;> simp only [step] <;>
    repeat' first
      | rfl
      | split
      | simp_all

theorem step_sleeps_length {I : Type} (m : Events) (w : World I) :
    (step m w).w.sleeps.length ≤ w.sleeps.length + 1 := by
  obtain ⟨st, lu, lf, du, df, dt, sb⟩ := m
  cases st <;> simp only [step] <;>
    repeat' first
      | (simp; done)
      | split
      | simp_all

theorem step_cont_char {I : Type} (m : Events) (w : World I) :
    (step m w).yields = true ∨ (step m w).m.state ≠ State.updateLoop true := by
  obtain ⟨st, lu, lf, du, df, dt, sb⟩ := m
  cases st <;> simp only [step] <;>
    repeat' first
      | split
      | (left; rfl)
      | (right; simp; done)

theorem step_cont_good {I : Type} (m : Events) (w : World I)
    (hy : (step m w).yields = false) :
    (step m w).m.state ≠ State.updateLoop true := by
  rcases step_cont_char m w with h | h
  · rw [hy] at h; cases h
  · exact h

/-! ### Run-level lemmas -/

theorem countUpdates_append {I : Type} (a b : List (Ev I)) :
    countUpdates (a ++ b) = countUpdates a + countUpdates b :=
  List.countP_append _ _ _

theorem sumUpdateDts_append {I : Type} (a b : List (Ev I)) :
    sumUpdateDts (a ++ b) = sumUpdateDts a + sumUpdateDts b := by
  simp [sumUpdateDts]

theorem runSteps_char {I : Type} (n : ℕ) (m : Events) (w : World I) :
    (runSteps n m w).1.last_update
      = m.last_update + countUpdates (runSteps n m w).2.2 * m.dt_update_in_ns
    ∧ (runSteps n m w).1.dt_update_in_ns = m.dt_update_in_ns
    ∧ (runSteps n m w).1.dt = m.dt
    ∧ (∀ d, Ev.update d ∈ (runSteps n m w).2.2 → d = m.dt)
    ∧ sumUpdateDts (runSteps n m w).2.2
      = (countUpdates (runSteps n m w).2.2 : ℚ) * m.dt := by
  induction n generalizing m w with
  | zero => simp [runSteps, countUpdates, sumUpdateDts]
  | succ k ih =>
      have hs := step_emitted_update m w
      have hc := step_config m w
      have ihs := ih (step m w).m (step m w).w
      simp only [runSteps, countUpdates_append, sumUpdateDts_append]
      refine ⟨?_, ?_, ?_, ?_, ?_⟩
      · rw [ihs.1, hs.1, hc.1]; ring
      · rw [ihs.2.1, hc.1]
      · rw [ihs.2.2.1, hc.2.2.1]
      · intro d hd
        rcases List.mem_append.mp hd with h | h
        · exact hs.2.1 d h
        · rw [ihs.2.2.2.1 d h, hc.2.2.1]
      · rw [ihs.2.2.2.2, hs.2.2, hc.2.2.1]
        push_cast
        ring

theorem nextFuel_sleeps_good {I : Type} (f : ℕ) :
    ∀ (m : Events) (w : World I) o m' w',
      m.state ≠ State.updateLoop true → nextFuel f m w = some (o, m', w') →
      w'.sleeps = w.sleeps := by
  induction f with
  | zero => intro m w o m' w' h hn; simp [nextFuel] at hn
  | succ k ih =>
      intro m w o m' w' h hn
      simp only [nextFuel] at hn
      by_cases hy : (step m w).yields = true
      · rw [if_pos hy] at hn
        have hw : (step m w).w = w' := by
          injection hn with hn'
          exact congrArg (fun t => t.2.2) hn'
        rw [← hw]
        exact step_sleeps_good m w h
      · rw [if_neg hy] at hn
        have h2 : (step m w).m.state ≠ State.updateLoop true :=
          step_cont_good m w (by simpa using hy)
        rw [ih _ _ _ _ _ h2 hn]
        exact step_sleeps_good m w h

theorem nextFuel_sleeps_le {I : Type} (f : ℕ) (m : Events) (w : World I)
    (o : Option (Ev I)) (m' : Events) (w' : World I)
    (hn : nextFuel f m w = some (o, m', w')) :
    w'.sleeps.length ≤ w.sleeps.length + 1 := by
  cases f with
  | zero => simp [nextFuel] at hn
  | succ k =>
      simp only [nextFuel] at hn
      by_cases hy : (step m w).yields = true
      · rw [if_pos hy] at hn
        have hw : (step m w).w = w' := by
          injection hn with hn'
          exact congrArg (fun t => t.2.2) hn'
        rw [← hw]
        exact step_sleeps_length m w
      · rw [if_neg hy] at hn
        have h2 : (step m w).m.state ≠ State.updateLoop true :=
          step_cont_good m w (by simpa using hy)
        have := nextFuel_sleeps_good k _ _ _ _ _ h2 hn
        rw [this]
        exact step_sleeps_length m w

theorem nextFuel_closed {I : Type} (f : ℕ) (m : Events) (w : World I)
    (hs : m.state = State.render) (hc : w.closeS w.closeIdx = true) :
    nextFuel (f + 1) m w
      = some (none, m, { w with closeIdx := w.closeIdx + 1 }) := by
  simp [nextFuel, step_render_closed m w hs hc]

theorem iterCalls_closed {I : Type} (f n : ℕ) (m : Events) (w : World I)
    (hs : m.state = State.render) (hc : ∀ k, w.closeS k = true) :
    (iterCalls (f + 1) n m w).map (fun r => r.1) = some none := by
  induction n generalizing w with
  | zero => simp [iterCalls, nextFuel_closed f m w hs (hc _)]
  | succ j ih =>
      simp only [iterCalls, nextFuel_closed f m w hs (hc _)]
      exact ih _ fun k => hc k

/-! ### Concrete fixtures (input-item type `ℕ`) used by the witnesses -/

/-- An open 100×100 window, clock frozen at 0, no queued input. -/
def wOpen : World ℕ :=
  { time := fun _ => 0, timeIdx := 0
    closeS := fun _ => false, closeIdx := 0
    sizeS := fun _ => (100, 100), sizeIdx := 0
    pollS := fun _ => none, pollIdx := 0
    sleeps := [], swaps := 0 }

/-- Same window, but reporting `should_close` forever. -/
def wClosed : World ℕ :=
  { wOpen with closeS := fun _ => true }

/-- Same window, open, but reporting a zero drawable width. -/
def wZeroSize : World ℕ :=
  { wOpen with sizeS := fun _ => (0, 100) }

/-- Engine configured at `ups 2` / `max_fps 1`, in the `Render` phase. -/
def mRen : Events :=
  { state := State.render, last_update := 0, last_frame := 0
    dt_update_in_ns := 500000000, dt_frame_in_ns := 1000000000
    dt := 1/2, swap_buffers := true }

/-- Same engine, about to commit a fixed update. -/
def mUpd : Events := { mRen with state := State.update }

/-- Same engine, in the `SwapBuffers` phase. -/
def mSwap : Events := { mRen with state := State.swapBuffers }

/-- Same engine, waiting with the idle guard clear. -/
def mWait : Events := { mRen with state := State.updateLoop false }

/-- Same engine, waiting with the idle guard already set. -/
def mWaitY : Events := { mRen with state := State.updateLoop true }

/-- Engine whose frame and update are both due at the same instant
(both periods zero), waiting. -/
def mDue : Events :=
  { mRen with state := State.updateLoop false, dt_update_in_ns := 0, dt_frame_in_ns := 0 }

/-! ### Claims -/

/-- C1: with a fixed configured rate `updates_per_second = U`
(`dt_update_in_ns = 10^9 / U`, `dt = 1/U`, not changed mid-run), after the
iterator has emitted exactly `N` Update events its `last_update` has
advanced by exactly `N * (10^9 / U)` nanoseconds from its initial value,
every emitted Update event carries `dt = 1/U` regardless of clock readings
or how Render/Idle/Input events interleaved, and the committed simulation
time (sum of Update `dt`s) is exactly `N * (1/U)` seconds. -/
theorem fixed_update_accumulator {I : Type} (U n : ℕ) (m : Events) (w : World I)
    (hdu : m.dt_update_in_ns = BILLION / U) (hdt : m.dt = 1 / (U : ℚ)) :
    (runSteps n m w).1.last_update
      = m.last_update + countUpdates (runSteps n m w).2.2 * (BILLION / U)
    ∧ (∀ d, Ev.update d ∈ (runSteps n m w).2.2 → d = 1 / (U : ℚ))
    ∧ sumUpdateDts (runSteps n m w).2.2
      = (countUpdates (runSteps n m w).2.2 : ℚ) * (1 / (U : ℚ)) := by
  have h := runSteps_char n m w
  refine ⟨?_, ?_, ?_⟩
  · rw [h.1, hdu]
  · intro d hd
    rw [h.2.2.2.1 d hd, hdt]
  · rw [h.2.2.2.2, hdt]

theorem fixed_update_accumulator_witness :
    mUpd.dt_update_in_ns = BILLION / 2
    ∧ mUpd.dt = 1 / ((2 : ℕ) : ℚ)
    ∧ (runSteps 1 mUpd wOpen).1.last_update
      = mUpd.last_update + countUpdates (runSteps 1 mUpd wOpen).2.2 * (BILLION / 2)
    ∧ sumUpdateDts (runSteps 1 mUpd wOpen).2.2
      = (countUpdates (runSteps 1 mUpd wOpen).2.2 : ℚ) * (1 / ((2 : ℕ) : ℚ)) :=
  ⟨by decide, by norm_num [mUpd, mRen],
   (fixed_update_accumulator 2 1 mUpd wOpen (by decide) (by norm_num [mUpd, mRen])).1,
   (fixed_update_accumulator 2 1 mUpd wOpen (by decide) (by norm_num [mUpd, mRen])).2.2⟩

/-- C2 counterexample: the claim "once the window reports closed, the very
next call to `next()` yields `None`" is false at this input: the engine is
mid-loop in the `Update` phase, the window reports closed at every query,
yet the very next call yields `Some` (an Update event). -/
theorem closed_window_can_still_yield :
    wClosed.closeS 0 = true
    ∧ (nextFuel 1 mUpd wClosed).map (fun r => r.1) = some (some (Ev.update (1/2))) := by
  constructor
  · rfl
  · rfl

/-- C2 (amended): `next()` returns `None` exactly when the `Render` phase
is reached with the window reporting closed (not whenever the window
reports closed mid-loop); in particular, if the engine is in the `Render`
phase and the window reports closed on every query, then this call and
every subsequent call yields `None`. -/
theorem none_only_at_render_close {I : Type} (m : Events) (w : World I) (f n : ℕ) :
    ((step m w).yields = true → (step m w).out = none →
       m.state = State.render ∧ w.closeS w.closeIdx = true)
    ∧ (m.state = State.render → (∀ k, w.closeS k = true) →
       (iterCalls (f + 1) n m w).map (fun r => r.1) = some none) := by
  constructor
  · exact step_none_only_closed m w
  · intro hs hc
    exact iterCalls_closed f n m w hs hc

theorem none_only_at_render_close_witness :
    mRen.state = State.render
    ∧ wClosed.closeS 0 = true
    ∧ (iterCalls 1 3 mRen wClosed).map (fun r => r.1) = some none :=
  ⟨rfl, rfl,
   (none_only_at_render_close mRen wClosed 0 3).2 rfl (fun _ => rfl)⟩

/-- C3: an AfterRender event is emitted iff swap-buffers is enabled: from
the `SwapBuffers` phase (which is entered exactly when a Render event was
just emitted), the very next pull emits AfterRender (after instructing the
window to present — `swaps` is incremented) when the flag is on, with no
other event interposed; when the flag is off, neither the `swap_buffers`
window call nor the AfterRender event occurs; and AfterRender is never
produced any other way. -/
theorem after_render_iff_swap {I : Type} (m : Events) (w : World I) (f : ℕ) :
    (m.state = State.swapBuffers → m.swap_buffers = true →
       nextFuel (f + 1) m w
         = some (some Ev.afterRender, { m with state := State.updateLoop false },
             { w with swaps := w.swaps + 1 }))
    ∧ (m.state = State.swapBuffers → m.swap_buffers = false →
       step m w = ⟨false, none, { m with state := State.updateLoop false }, w⟩)
    ∧ ((step m w).out = some Ev.afterRender →
       m.state = State.swapBuffers ∧ m.swap_buffers = true)
    ∧ (∀ d wd ht, (step m w).out = some (Ev.render d wd ht) →
       (step m w).m.state = State.swapBuffers) := by
  obtain ⟨st, lu, lf, du, df, dt, sb⟩ := m
  refine ⟨?_, ?_, ?_, ?_⟩
  · intro hs hb
    have hst : st = State.swapBuffers := hs
    subst hst
    have hsb : sb = true := hb
    subst hsb
    simp [nextFuel, step]
  · intro hs hb
    have hst : st = State.swapBuffers := hs
    subst hst
    have hsb : sb = false := hb
    subst hsb
    simp [step]
  · intro ho
    cases st <;> simp only [step] at ho ⊢ <;>
      repeat' first
        | (split at ho)
        | constructor
        | simp_all
  · intro d wd ht ho
    cases st <;> simp only [step] at ho ⊢ <;>
      repeat' first
        | (split at ho)
        | simp_all

theorem after_render_iff_swap_witness :
    mSwap.state = State.swapBuffers
    ∧ mSwap.swap_buffers = true
    ∧ nextFuel 1 mSwap wOpen
        = some (some Ev.afterRender, { mSwap with state := State.updateLoop false },
            { wOpen with swaps := wOpen.swaps + 1 }) :=
  ⟨rfl, rfl, (after_render_iff_swap mSwap wOpen 0).1 rfl rfl⟩

/-- C4: in the waiting phase while neither a frame nor an update is due
(`now < next_event`): a polled input item is emitted as an Input event and
resets the idle-already-reported guard to false; if no input is pending and
the guard is clear, exactly one Idle event is emitted, carrying
`dt = (next_event - now) / 10^9` seconds, and the guard is set; if no input
is pending and the guard is already set, no further Idle is emitted on this
waiting interval (the iteration yields nothing and sleeps instead). -/
theorem idle_once_per_wait {I : Type} (m : Events) (w : World I) (b : Bool)
    (hs : m.state = State.updateLoop b)
    (hlt : w.time w.timeIdx
      < min (m.last_frame + m.dt_frame_in_ns) (m.last_update + m.dt_update_in_ns)) :
    (∀ x, w.pollS w.pollIdx = some x →
       (step m w).yields = true ∧ (step m w).out = some (Ev.input x)
       ∧ (step m w).m.state = State.updateLoop false)
    ∧ (w.pollS w.pollIdx = none → b = false →
       (step m w).yields = true
       ∧ (step m w).out = some (Ev.idle
           (((min (m.last_frame + m.dt_frame_in_ns) (m.last_update + m.dt_update_in_ns)
               - w.time w.timeIdx : ℕ) : ℚ) / (BILLION : ℚ)))
       ∧ (step m w).m.state = State.updateLoop true)
    ∧ (w.pollS w.pollIdx = none → b = true →
       (step m w).yields = false ∧ (step m w).out = none
       ∧ (step m w).m.state = State.updateLoop false) := by
  obtain ⟨st, lu, lf, du, df, dt, sb⟩ := m
  have hst : st = State.updateLoop b := hs
  subst hst
  refine ⟨?_, ?_, ?_⟩
  · intro x hp
    simp only [step, if_pos hlt, hp]
    refine ⟨?_, ?_, ?_⟩ <;> first | rfl | trivial | simp
  · intro hp hb
    subst hb
    simp only [step, if_pos hlt, hp]
    refine ⟨?_, ?_, ?_⟩ <;> first | rfl | trivial | simp
  · intro hp hb
    subst hb
    simp only [step, if_pos hlt, hp]
    refine ⟨?_, ?_, ?_⟩ <;> first | rfl | trivial | simp

theorem idle_once_per_wait_witness :
    mWait.state = State.updateLoop false
    ∧ wOpen.time wOpen.timeIdx
      < min (mWait.last_frame + mWait.dt_frame_in_ns)
          (mWait.last_update + mWait.dt_update_in_ns)
    ∧ wOpen.pollS wOpen.pollIdx = none
    ∧ ((step mWait wOpen).yields = true
       ∧ (step mWait wOpen).out = some (Ev.idle
           (((min (mWait.last_frame + mWait.dt_frame_in_ns)
                (mWait.last_update + mWait.dt_update_in_ns)
               - wOpen.time wOpen.timeIdx : ℕ) : ℚ) / (BILLION : ℚ)))
       ∧ (step mWait wOpen).m.state = State.updateLoop true) :=
  ⟨rfl, by decide, rfl,
   (idle_once_per_wait mWait wOpen false rfl (by decide)).2.1 rfl rfl⟩

/-- C5: a Render event is never emitted while the window-reported width or
height is zero: in the `Render` phase with the window open, if either
dimension of the reported size is zero the engine emits nothing and moves
directly to `UpdateLoop` with the idle guard clear; and any emitted Render
event carries the reported size, both dimensions nonzero. -/
theorem render_needs_nonzero_size {I : Type} (m : Events) (w : World I) :
    (m.state = State.render → w.closeS w.closeIdx = false →
       ((w.sizeS w.sizeIdx).1 = 0 ∨ (w.sizeS w.sizeIdx).2 = 0) →
       (step m w).yields = false ∧ (step m w).out = none
       ∧ (step m w).m.state = State.updateLoop false)
    ∧ (∀ d wd ht, (step m w).out = some (Ev.render d wd ht) →
       m.state = State.render ∧ wd = (w.sizeS w.sizeIdx).1 ∧ ht = (w.sizeS w.sizeIdx).2
       ∧ wd ≠ 0 ∧ ht ≠ 0) := by
  obtain ⟨st, lu, lf, du, df, dt, sb⟩ := m
  constructor
  · intro hs hc hz
    have hst : st = State.render := hs
    subst hst
    have hnz : ¬ ((w.sizeS w.sizeIdx).1 ≠ 0 ∧ (w.sizeS w.sizeIdx).2 ≠ 0) := by
      rcases hz with h | h <;> simp [h]
    simp only [step, hc, Bool.false_eq_true, if_false, if_neg hnz]
    refine ⟨?_, ?_, ?_⟩ <;> first | rfl | trivial | simp
  · intro d wd ht ho
    cases st <;> simp only [step] at ho ⊢ <;>
      repeat' first
        | (split at ho)
        | constructor
        | simp_all

theorem render_needs_nonzero_size_witness :
    mRen.state = State.render
    ∧ wZeroSize.closeS wZeroSize.closeIdx = false
    ∧ ((wZeroSize.sizeS wZeroSize.sizeIdx).1 = 0
        ∨ (wZeroSize.sizeS wZeroSize.sizeIdx).2 = 0)
    ∧ ((step mRen wZeroSize).yields = false
       ∧ (step mRen wZeroSize).out = none
       ∧ (step mRen wZeroSize).m.state = State.updateLoop false) :=
  ⟨rfl, rfl, Or.inl rfl,
   (render_needs_nonzero_size mRen wZeroSize).1 rfl rfl (Or.inl rfl)⟩

/-- C6: tie-break in the waiting phase when something is due
(`next_event ≤ now`): if `next_frame = next_update` the engine moves to
`Render` (render takes priority over committing an update); it moves to
`HandleEvents` exactly when `next_update` is strictly earlier than
`next_frame`; no event is yielded by this transition. -/
theorem render_priority_tie_break {I : Type} (m : Events) (w : World I) (b : Bool)
    (hs : m.state = State.updateLoop b)
    (hdue : min (m.last_frame + m.dt_frame_in_ns) (m.last_update + m.dt_update_in_ns)
      ≤ w.time w.timeIdx) :
    (m.last_frame + m.dt_frame_in_ns = m.last_update + m.dt_update_in_ns →
       (step m w).m.state = State.render)
    ∧ ((step m w).m.state = State.handleEvents
       ↔ m.last_update + m.dt_update_in_ns < m.last_frame + m.dt_frame_in_ns)
    ∧ (step m w).yields = false := by
  obtain ⟨st, lu, lf, du, df, dt, sb⟩ := m
  have hst : st = State.updateLoop b := hs
  subst hst
  have hdue2 : min (lf + df) (lu + du) ≤ w.time w.timeIdx := hdue
  have hnlt : ¬ (w.time w.timeIdx < min (lf + df) (lu + du)) := not_lt.mpr hdue2
  refine ⟨?_, ?_, ?_⟩
  · intro he
    have he2 : lf + df = lu + du := he
    have hf : min (lf + df) (lu + du) = lf + df := by rw [he2]; exact min_self _
    simp only [step, if_neg hnlt]
    rw [if_pos hf]
  · simp only [step, if_neg hnlt]
    by_cases hf : min (lf + df) (lu + du) = lf + df
    · rw [if_pos hf]
      have hle : lf + df ≤ lu + du := min_eq_left_iff.mp hf
      constructor
      · intro h; simp at h
      · intro h; omega
    · rw [if_neg hf]
      have hlt2 : lu + du < lf + df := by
        rcases lt_or_ge (lu + du) (lf + df) with h | h
        · exact h
        · exact absurd (min_eq_left h) hf
      exact ⟨fun _ => hlt2, fun _ => rfl⟩
  · simp only [step, if_neg hnlt]
    split <;> rfl

theorem render_priority_tie_break_witness :
    mDue.state = State.updateLoop false
    ∧ min (mDue.last_frame + mDue.dt_frame_in_ns) (mDue.last_update + mDue.dt_update_in_ns)
      ≤ wOpen.time wOpen.timeIdx
    ∧ mDue.last_frame + mDue.dt_frame_in_ns = mDue.last_update + mDue.dt_update_in_ns
    ∧ (step mDue wOpen).m.state = State.render :=
  ⟨rfl, by decide, by decide,
   (render_priority_tie_break mDue wOpen false rfl (by decide)).1 (by decide)⟩

/-- C7: timestamp anchoring — over any run, `last_update` changes only by
adding whole multiples of `dt_update_in_ns` (a single iteration adds zero
or one period; it is never assigned a clock reading), while `last_frame`
is assigned the current clock reading every time the `Render` phase is
entered with the window open (whether or not a Render event is then
emitted, including the zero-size skip) and is unchanged in every other
phase. -/
theorem timestamp_anchoring {I : Type} (m : Events) (w : World I) (n : ℕ) :
    (∃ k, (runSteps n m w).1.last_update = m.last_update + k * m.dt_update_in_ns)
    ∧ ((step m w).m.last_update = m.last_update
       ∨ (step m w).m.last_update = m.last_update + m.dt_update_in_ns)
    ∧ (m.state = State.render → w.closeS w.closeIdx = false →
       (step m w).m.last_frame = w.time w.timeIdx)
    ∧ (m.state ≠ State.render → (step m w).m.last_frame = m.last_frame) := by
  refine ⟨?_, step_last_update_cases m w, step_last_frame_render m w,
    step_last_frame_other m w⟩
  exact ⟨countUpdates (runSteps n m w).2.2, (runSteps_char n m w).1⟩

theorem timestamp_anchoring_witness :
    mRen.state = State.render
    ∧ wOpen.closeS wOpen.closeIdx = false
    ∧ (step mRen wOpen).m.last_frame = wOpen.time wOpen.timeIdx :=
  ⟨rfl, rfl, (timestamp_anchoring mRen wOpen 1).2.2.1 rfl rfl⟩

/-- C8: frame effect of the configuration setters — for a nonzero rate,
`ups n` recomputes exactly `dt_update_in_ns` (to `10^9 / n`) and `dt` (to
`1/n`), `max_fps n` recomputes exactly `dt_frame_in_ns`, and
`swap_buffers b` sets exactly the swap flag; every other field, in
particular the anchored `last_update` and `last_frame`, is left unchanged
(the `{m with ...}` form fixes all remaining fields to those of `m`). -/
theorem setters_frame_effect (m : Events) (n : ℕ) (b : Bool) (hn : n ≠ 0) :
    ups? m n = some { m with dt_update_in_ns := BILLION / n, dt := 1 / (n : ℚ) }
    ∧ max_fps? m n = some { m with dt_frame_in_ns := BILLION / n }
    ∧ set_swap_buffers m b = { m with swap_buffers := b } := by
  refine ⟨?_, ?_, rfl⟩ <;> simp [ups?, max_fps?, checked_div, hn]

theorem setters_frame_effect_witness :
    (60 : ℕ) ≠ 0
    ∧ ups? mRen 60
        = some { mRen with dt_update_in_ns := BILLION / 60, dt := 1 / ((60 : ℕ) : ℚ) }
    ∧ max_fps? mRen 60 = some { mRen with dt_frame_in_ns := BILLION / 60 }
    ∧ set_swap_buffers mRen false = { mRen with swap_buffers := false } :=
  ⟨by decide, (setters_frame_effect mRen 60 false (by decide)).1,
   (setters_frame_effect mRen 60 false (by decide)).2.1,
   (setters_frame_effect mRen 60 false (by decide)).2.2⟩

/-- Auxiliary bound: a sleep request of `ns_to_ms x` milliseconds, read in
nanoseconds, never exceeds `x` nanoseconds (truncation, and the `u32` cast
only ever shrinks the value). -/
theorem ns_to_ms_le (x : ℕ) : ns_to_ms x * 1000000 ≤ x := by
  unfold ns_to_ms
  calc (x / 1000000) % 2 ^ 32 * 1000000
      ≤ x / 1000000 * 1000000 := Nat.mul_le_mul_right _ (Nat.mod_le _ _)
    _ ≤ x := Nat.div_mul_le_self x 1000000

/-- C9: the rate setters divide `BILLION` by their argument with no guard,
so a zero rate reaches the division-by-zero branch (modelled `none`; no
configuration error value is produced); for any positive rate they are
total; the constructor is total (its divisors are the nonzero defaults);
and the derived period `BILLION / n` is strictly positive iff `n ≤ 10^9`
(for positive `n`). -/
theorem zero_rate_division (m : Events) (start : ℕ) :
    ups? m 0 = none
    ∧ max_fps? m 0 = none
    ∧ (∀ n : ℕ, 0 < n → (ups? m n).isSome = true ∧ (max_fps? m n).isSome = true)
    ∧ (new? start).isSome = true
    ∧ (∀ n : ℕ, 0 < n → (0 < BILLION / n ↔ n ≤ BILLION)) := by
  refine ⟨by simp [ups?, checked_div], by simp [max_fps?, checked_div], ?_, ?_, ?_⟩
  · intro n hn
    constructor <;> simp [ups?, max_fps?, checked_div, Nat.pos_iff_ne_zero.mp hn]
  · simp [new?, checked_div, DEFAULT_UPS, DEFAULT_MAX_FPS]
  · intro n hn
    constructor
    · intro h
      by_contra hgt
      rw [Nat.div_eq_of_lt (by omega)] at h
      omega
    · intro h
      exact Nat.div_pos h hn

theorem zero_rate_division_witness :
    ups? mRen 0 = none
    ∧ (0 < (3 : ℕ)
       ∧ (ups? mRen 3).isSome = true ∧ (max_fps? mRen 3).isSome = true)
    ∧ (0 < (3 : ℕ) ∧ (0 < BILLION / 3 ↔ 3 ≤ BILLION)) :=
  ⟨(zero_rate_division mRen 0).1,
   ⟨by decide, (zero_rate_division mRen 0).2.2.1 3 (by decide)⟩,
   ⟨by decide, (zero_rate_division mRen 0).2.2.2.2 3 (by decide)⟩⟩

/-- C10: any single call to `next` (any fuel) adds at most one entry to the
sleep log; and the one sleeping branch — waiting phase, idle already
reported, no input pending — yields no event, requests exactly
`ns_to_ms (next_event - now)` milliseconds, and that request converted
back to nanoseconds never exceeds the remaining time `next_event - now`
to the nearest scheduled event. -/
theorem bounded_single_sleep {I : Type} (m : Events) (w : World I) (f : ℕ) :
    (∀ o m' w', nextFuel f m w = some (o, m', w') →
       w'.sleeps.length ≤ w.sleeps.length + 1)
    ∧ (m.state = State.updateLoop true →
       w.time w.timeIdx
         < min (m.last_frame + m.dt_frame_in_ns) (m.last_update + m.dt_update_in_ns) →
       w.pollS w.pollIdx = none →
       (step m w).yields = false ∧ (step m w).out = none
       ∧ (step m w).w.sleeps
         = w.sleeps ++ [ns_to_ms (min (m.last_frame + m.dt_frame_in_ns)
             (m.last_update + m.dt_update_in_ns) - w.time w.timeIdx)]
       ∧ ns_to_ms (min (m.last_frame + m.dt_frame_in_ns)
             (m.last_update + m.dt_update_in_ns) - w.time w.timeIdx) * 1000000
         ≤ min (m.last_frame + m.dt_frame_in_ns) (m.last_update + m.dt_update_in_ns)
             - w.time w.timeIdx) := by
  constructor
  · intro o m' w' hn
    exact nextFuel_sleeps_le f m w o m' w' hn
  · intro hs hlt hp
    obtain ⟨st, lu, lf, du, df, dt, sb⟩ := m
    have hst : st = State.updateLoop true := hs
    subst hst
    have hlt2 : w.time w.timeIdx < min (lf + df) (lu + du) := hlt
    refine ⟨?_, ?_, ?_, ns_to_ms_le _⟩ <;>
      simp only [step, if_pos hlt2, hp] <;> first | rfl | trivial | simp

theorem bounded_single_sleep_witness :
    mWaitY.state = State.updateLoop true
    ∧ wOpen.time wOpen.timeIdx
      < min (mWaitY.last_frame + mWaitY.dt_frame_in_ns)
          (mWaitY.last_update + mWaitY.dt_update_in_ns)
    ∧ wOpen.pollS wOpen.pollIdx = none
    ∧ ((step mWaitY wOpen).yields = false ∧ (step mWaitY wOpen).out = none
       ∧ (step mWaitY wOpen).w.sleeps
         = wOpen.sleeps ++ [ns_to_ms (min (mWaitY.last_frame + mWaitY.dt_frame_in_ns)
             (mWaitY.last_update + mWaitY.dt_update_in_ns) - wOpen.time wOpen.timeIdx)]
       ∧ ns_to_ms (min (mWaitY.last_frame + mWaitY.dt_frame_in_ns)
             (mWaitY.last_update + mWaitY.dt_update_in_ns) - wOpen.time wOpen.timeIdx)
             * 1000000
         ≤ min (mWaitY.last_frame + mWaitY.dt_frame_in_ns)
             (mWaitY.last_update + mWaitY.dt_update_in_ns) - wOpen.time wOpen.timeIdx) :=
  ⟨rfl, by decide, rfl,
   (bounded_single_sleep mWaitY wOpen 0).2 rfl (by decide) rfl⟩

end EventLoop
